import Mathlib

/-!
Shallow embedding of the booking/recurrence/conflict core of the
mondriaan-booking application (`src/app.py`).

Instants are natural numbers of microseconds (Python `datetime` has
microsecond resolution); a calendar date is its day number, with day 0 a
Monday so that `weekday d = d % 7` matches Python's `date.weekday()`
(Monday = 0). The booking table is a `List Booking`; SQLAlchemy queries
become list filters. One point needs care: the SQLAlchemy filter
`Booking.series_id != sid` is evaluated by the database under SQL
three-valued logic, so a row whose `series_id` is NULL does not satisfy
it and is excluded from the query result; `seriesNe` models that.
-/

namespace MondriaanBooking

/-- Microseconds per calendar day. `datetime.max.time()` is the last
representable instant of a day, i.e. `usPerDay - 1` past midnight. -/
def usPerDay : Nat := 86400000000

/-- Embeds `t.date()`: the calendar date (day number) of an instant. -/
def dateOf (t : Nat) : Nat := t / usPerDay

/-- Embeds `datetime.combine(d, tod)`: the instant at time-of-day `tod` on day `d`. -/
def combine (d tod : Nat) : Nat := d * usPerDay + tod

/-- Embeds `t.time()`: the time of day of an instant. -/
def timeOf (t : Nat) : Nat := t % usPerDay

/-- Embeds `date.weekday()`: Monday = 0 … Sunday = 6 (day 0 is a Monday). -/
def weekday (d : Nat) : Nat := d % 7

/-- The fixed room enumeration `ROOMS` of `app.py`. -/
def ROOMS : List String := ["TMS ruimte", "CO2 ruimte", "Behandelruimte", "Wetlab"]

/-- A row of the `Booking` table (`created_at` is irrelevant to the logic
modelled here and omitted). `stop` embeds the column `end`, a keyword. -/
structure Booking where
  id : Nat
  room : String
  title : String
  account : String
  who : Option String
  start : Nat
  stop : Nat
  seriesId : Option String
deriving DecidableEq, Repr

/-- Open-interval overlap of the ranges `[s1, e1)` and `[s2, e2)`:
`start < other.end AND end > other.start` (§4.1 of the spec). -/
def rangesOverlap (s1 e1 s2 e2 : Nat) : Bool :=
  decide (s1 < e2) && decide (e1 > s2)

/-- Overlap of two bookings' ranges, via `rangesOverlap`. -/
def Booking.overlaps (a b : Booking) : Bool :=
  rangesOverlap a.start a.stop b.start b.stop

/-- The conflict query of `new_booking` (lines 333-337):
`Booking.room == room, Booking.start < edt, Booking.end > sdt`. -/
def createConflict (db : List Booking) (room : String) (sdt edt : Nat) : Bool :=
  db.any (fun b => b.room == room && decide (b.start < edt) && decide (b.stop > sdt))

/-- The conflict query of the single-edit branch of `edit_booking`
(lines 537-542), excluding the edited booking's own id. -/
def singleEditConflict (db : List Booking) (bid : Nat) (room : String) (sdt edt : Nat) : Bool :=
  db.any (fun b => decide (b.id ≠ bid) && b.room == room &&
    decide (b.start < edt) && decide (b.stop > sdt))

/-- SQL three-valued evaluation of `Booking.series_id != sid`: a NULL
`series_id` makes the comparison NULL, so the row is filtered out. -/
def seriesNe (x : Option String) (sid : String) : Bool :=
  match x with
  | none => false
  | some s => s != sid

/-- The conflict query of the series-edit pre-check (lines 496-501):
`Booking.room == room, Booking.series_id != sid, Booking.start < edt,
Booking.end > sdt`. -/
def seriesEditConflict (db : List Booking) (sid room : String) (sdt edt : Nat) : Bool :=
  db.any (fun b => b.room == room && seriesNe b.seriesId sid &&
    decide (b.start < edt) && decide (b.stop > sdt))

/-- All dates from `a` to `b` inclusive, ascending (empty when `b < a`). -/
def datesBetween (a b : Nat) : List Nat :=
  (List.range (b + 1 - a)).map (a + ·)

/-- The date-expansion loop (`new_booking` lines 316-320, `edit_booking`
lines 484-489): every date from `anchor` to `endD` inclusive whose
weekday is in `wds`, ascending. -/
def expandDates (anchor : Nat) (wds : Finset Nat) (endD : Nat) : List Nat :=
  (datesBetween anchor endD).filter (fun d => decide (weekday d ∈ wds))

/-- The candidate-date list of `new_booking` (lines 309-323): `[base]`
when no repeat spec is given, else `base` followed by the expansion from
`base + 1` — `base` is included regardless of its weekday. -/
def bookingDates (base : Nat) (rep : Option (Finset Nat × Nat)) : List Nat :=
  match rep with
  | none => [base]
  | some (wds, repEnd) => base :: expandDates (base + 1) wds repEnd

/-- Embeds `infer_series_pattern` on the occurrence dates (lines 137-145):
minimum date, set of distinct weekdays, maximum date
(`(none, ∅, none)` on the empty list). -/
def inferDates (dates : List Nat) : Option Nat × Finset Nat × Option Nat :=
  (dates.min?, (dates.map weekday).toFinset, dates.max?)

/-- Embeds `infer_series_pattern` applied to booking occurrences. -/
def infer_series_pattern (occ : List Booking) : Option Nat × Finset Nat × Option Nat :=
  inferDates (occ.map (fun o => dateOf o.start))

/-- The bookings a loop over candidate dates persists (one per date, same
times of day, ids assigned consecutively, shared `seriesId`). -/
def mkSeriesBookings (room title account : String) (who sid : Option String)
    (st et : Nat) : Nat → List Nat → List Booking
  | _, [] => []
  | nextId, d :: ds =>
    ⟨nextId, room, title, account, who, combine d st, combine d et, sid⟩ ::
      mkSeriesBookings room title account who sid st et (nextId + 1) ds

/-- The creation loop of `new_booking` (lines 329-344). The session is
threaded because SQLAlchemy autoflushes pending inserts before each
conflict query. Returns (bookings persisted, conflicting dates skipped). -/
def createLoop (db : List Booking) (room title account : String) (who sid : Option String)
    (st et nextId : Nat) : List Nat → List Booking × List Nat
  | [] => ([], [])
  | d :: ds =>
    let sdt := combine d st
    let edt := combine d et
    if createConflict db room sdt edt then
      let r := createLoop db room title account who sid st et nextId ds
      (r.1, d :: r.2)
    else
      let b : Booking := ⟨nextId, room, title, account, who, sdt, edt, sid⟩
      let r := createLoop (db ++ [b]) room title account who sid st et (nextId + 1) ds
      (b :: r.1, r.2)

/-- The POST handler of `new_booking` (lines 279-348) on parsed inputs:
`none` on validation failure (invalid room, or end time not after start
time — both rejected before any side effect), otherwise the new table,
the reported created count and the skipped (conflicting) dates.
`freshSid` is the UUID minted when more than one date is booked. -/
def new_booking (db : List Booking) (room title account : String) (who : Option String)
    (base st et : Nat) (rep : Option (Finset Nat × Nat)) (nextId : Nat)
    (freshSid : String) : Option (List Booking × Nat × List Nat) :=
  if room ∈ ROOMS then
    if et ≤ st then none
    else
      let dates := bookingDates base rep
      let sid : Option String := if dates.length > 1 then some freshSid else none
      let r := createLoop db room title account who sid st et nextId dates
      some (db ++ r.1, r.1.length, r.2)
  else none

/-- The series branch of `edit_booking` from the conflict pre-check on
(lines 492-533), on the already-resolved new candidate dates: collect the
conflicting dates; if any, reject with the list and leave the table
untouched; else delete every occurrence of the series and recreate one
booking per date with the same `seriesId` and account. -/
def editSeriesCore (db : List Booking) (sid room title account : String)
    (who : Option String) (st et : Nat) (newDates : List Nat) (nextId : Nat) :
    List Booking × List Nat :=
  let conflicts := newDates.filter
    (fun d => seriesEditConflict db sid room (combine d st) (combine d et))
  if conflicts.isEmpty then
    let kept := db.filter (fun bk => !(bk.seriesId == some sid))
    (kept ++ mkSeriesBookings room title account who (some sid) st et nextId newDates, [])
  else (db, conflicts)

/-- The week query of `index` (lines 238-241): bookings overlapping
`[combine weekStart 0, combine (weekStart+6) (usPerDay-1)]`, i.e.
`Booking.start <= end_dt AND Booking.end >= start_dt`. -/
def weekQuery (db : List Booking) (weekStart : Nat) : List Booking :=
  db.filter (fun b => decide (b.start ≤ combine (weekStart + 6) (usPerDay - 1)) &&
    decide (combine weekStart 0 ≤ b.stop))

/-- The grid bucket of `index` (lines 244-248): cell (room, day) exists
for the enumerated rooms and the 7 days of the week, and collects the
queried bookings whose room matches and whose start date is `day`. -/
def buildGrid (db : List Booking) (weekStart : Nat) (room : String) (day : Nat) :
    List Booking :=
  if room ∈ ROOMS ∧ weekStart ≤ day ∧ day ≤ weekStart + 6 then
    (weekQuery db weekStart).filter (fun b => b.room == room && dateOf b.start == day)
  else []

/-- Embeds `api_bookings` (lines 618-636). Each query parameter is `none` when
absent and `some none` when present but not ISO-8601 parseable (the
`except ValueError: pass` path); only `some (some t)` adds a filter.
The result is ordered by ascending start. -/
def api_bookings (db : List Booking) (startParam endParam : Option (Option Nat)) :
    List Booking :=
  let q1 := match startParam with
    | some (some sdt) => db.filter (fun b : Booking => decide (sdt ≤ b.stop))
    | _ => db
  let q2 := match endParam with
    | some (some edt) => q1.filter (fun b : Booking => decide (b.start ≤ edt))
    | _ => q1
  q2.mergeSort (fun a b : Booking => decide (a.start ≤ b.start))


/-! ### Basic facts about the date-expansion lists -/

theorem mem_datesBetween {a b d : Nat} : d ∈ datesBetween a b ↔ a ≤ d ∧ d ≤ b := by
  simp only [datesBetween, List.mem_map, List.mem_range]
  constructor
  · rintro ⟨i, hi, rfl⟩
    omega
  · rintro ⟨h1, h2⟩
    exact ⟨d - a, by omega, by omega⟩

theorem pairwise_lt_datesBetween (a b : Nat) :
    (datesBetween a b).Pairwise (· < ·) := by
  unfold datesBetween
  exact (List.pairwise_lt_range _).map _ (fun i j h => by omega)

theorem mem_expandDates {A E d : Nat} {W : Finset Nat} :
    d ∈ expandDates A W E ↔ A ≤ d ∧ d ≤ E ∧ weekday d ∈ W := by
  simp only [expandDates, List.mem_filter, mem_datesBetween, decide_eq_true_eq]
  tauto

theorem pairwise_lt_expandDates (A E : Nat) (W : Finset Nat) :
    (expandDates A W E).Pairwise (· < ·) :=
  (pairwise_lt_datesBetween A E).filter _

theorem pairwise_lt_bookingDates (base : Nat) (rep : Option (Finset Nat × Nat)) :
    (bookingDates base rep).Pairwise (· < ·) := by
  match rep with
  | none => simp [bookingDates]
  | some (wds, repEnd) =>
    refine List.Pairwise.cons (fun d hd => ?_) (pairwise_lt_expandDates _ _ _)
    exact Nat.lt_of_succ_le (mem_expandDates.mp hd).1

/-- C5. The candidate date list of `new_booking` is `[base]` when no
repeat spec is given; with a repeat spec it is strictly ascending, always
contains `base` first, and its members are exactly `base` together with
every date from `base + 1` through `repEnd` whose weekday lies in the
repeat weekday set. -/
theorem new_booking_candidate_dates (base repEnd : Nat) (wds : Finset Nat) :
    bookingDates base none = [base] ∧
    List.Sorted (· < ·) (bookingDates base (some (wds, repEnd))) ∧
    (∃ l, bookingDates base (some (wds, repEnd)) = base :: l) ∧
    (∀ d, d ∈ bookingDates base (some (wds, repEnd)) ↔
      d = base ∨ (base + 1 ≤ d ∧ d ≤ repEnd ∧ weekday d ∈ wds)) := by
  refine ⟨rfl, pairwise_lt_bookingDates _ _, ⟨_, rfl⟩, fun d => ?_⟩
  simp only [bookingDates, List.mem_cons, mem_expandDates]

/-! ### The Infer/Expand round trip -/

/-- C3 counterexample. With anchor a Monday (day 0), weekday set containing only Tuesday
and end the Tuesday (day 1), the expansion is the non-empty [day 1], yet
inference returns day 1 — not the anchor — as the minimum date, so
`Infer (Expand A W E)` is not `(A, W, E)`. -/
theorem infer_expand_roundtrip_cex :
    ({1} : Finset Nat) ≠ ∅ ∧ (0 : Nat) ≤ 1 ∧ expandDates 0 {1} 1 ≠ [] ∧
    inferDates (expandDates 0 {1} 1) ≠ (some 0, ({1} : Finset Nat), some 1) := by
  decide

/-- C3 (amended). If the anchor's weekday and the end date's weekday are
both in the weekday set, and every weekday of the set occurs on some date
between anchor and end, then inferring the pattern of the expanded
occurrence list reproduces (anchor, weekday set, end) exactly. -/
theorem infer_expand_roundtrip (A E : Nat) (W : Finset Nat)
    (hA : weekday A ∈ W) (hE : weekday E ∈ W) (hAE : A ≤ E)
    (hcov : ∀ w ∈ W, ∃ d ∈ datesBetween A E, weekday d = w) :
    inferDates (expandDates A W E) = (some A, W, some E) := by
  have hAmem : A ∈ expandDates A W E := mem_expandDates.mpr ⟨le_refl A, hAE, hA⟩
  have hEmem : E ∈ expandDates A W E := mem_expandDates.mpr ⟨hAE, le_refl E, hE⟩
  refine Prod.ext ?_ (Prod.ext ?_ ?_)
  · exact List.min?_eq_some_iff'.mpr
      ⟨hAmem, fun b hb => (mem_expandDates.mp hb).1⟩
  · show (List.map weekday (expandDates A W E)).toFinset = W
    ext w
    simp only [List.mem_toFinset, List.mem_map]
    constructor
    · rintro ⟨d, hd, rfl⟩
      exact (mem_expandDates.mp hd).2.2
    · intro hw
      obtain ⟨d, hd, hwd⟩ := hcov w hw
      have hdm := mem_datesBetween.mp hd
      exact ⟨d, mem_expandDates.mpr ⟨hdm.1, hdm.2, hwd ▸ hw⟩, hwd⟩
  · exact List.max?_eq_some_iff'.mpr
      ⟨hEmem, fun b hb => (mem_expandDates.mp hb).2.1⟩

/-- C3 witness: the spec's own example — anchor Monday day 0, weekdays
Monday and Wednesday, end the following Monday day 7 — round-trips exactly. -/
theorem infer_expand_roundtrip_witness :
    inferDates (expandDates 0 {0, 2} 7) = (some 0, ({0, 2} : Finset Nat), some 7) :=
  infer_expand_roundtrip 0 7 {0, 2} (by decide) (by decide) (by decide) (by decide)

/-! ### The creation loop of new_booking -/

theorem combine_le_combine_of_lt {d d' : Nat} (st et : Nat)
    (h : d < d') (het : et ≤ usPerDay) : combine d et ≤ combine d' st := by
  unfold combine
  calc d * usPerDay + et ≤ d * usPerDay + usPerDay := by omega
    _ = (d + 1) * usPerDay := by ring
    _ ≤ d' * usPerDay := Nat.mul_le_mul_right _ h
    _ ≤ d' * usPerDay + st := Nat.le_add_right _ _

theorem dateOf_combine {tod : Nat} (d : Nat) (h : tod < usPerDay) :
    dateOf (combine d tod) = d := by
  simp only [dateOf, combine, usPerDay] at h ⊢
  omega

theorem timeOf_combine {tod : Nat} (d : Nat) (h : tod < usPerDay) :
    timeOf (combine d tod) = tod := by
  simp only [timeOf, combine, usPerDay] at h ⊢
  omega

theorem mem_mkSeriesBookings {room title account : String} {who sid : Option String}
    {st et : Nat} {b : Booking} :
    ∀ {nextId : Nat} {dates : List Nat},
      b ∈ mkSeriesBookings room title account who sid st et nextId dates →
      ∃ d ∈ dates, b = ⟨b.id, room, title, account, who, combine d st, combine d et, sid⟩
  | _, [], h => by simp [mkSeriesBookings] at h
  | nextId, d :: ds, h => by
    rw [mkSeriesBookings] at h
    rcases List.mem_cons.mp h with h | h
    · exact ⟨d, List.mem_cons_self .., by rw [h]⟩
    · obtain ⟨d', hd', hb⟩ := mem_mkSeriesBookings h
      exact ⟨d', List.mem_cons_of_mem _ hd', hb⟩

theorem map_dateOf_mkSeriesBookings (room title account : String)
    (who sid : Option String) (st et : Nat) (hst : st < usPerDay) :
    ∀ (nextId : Nat) (dates : List Nat),
      (mkSeriesBookings room title account who sid st et nextId dates).map
        (fun b => dateOf b.start) = dates
  | _, [] => rfl
  | nextId, d :: ds => by
    rw [mkSeriesBookings, List.map_cons,
      map_dateOf_mkSeriesBookings room title account who sid st et hst (nextId + 1) ds]
    simp [dateOf_combine d hst]

theorem length_mkSeriesBookings (room title account : String)
    (who sid : Option String) (st et : Nat) :
    ∀ (nextId : Nat) (dates : List Nat),
      (mkSeriesBookings room title account who sid st et nextId dates).length =
        dates.length
  | _, [] => rfl
  | nextId, d :: ds => by
    rw [mkSeriesBookings, List.length_cons, List.length_cons,
      length_mkSeriesBookings room title account who sid st et (nextId + 1) ds]

theorem createConflict_append (db extra : List Booking) (room : String) (sdt edt : Nat)
    (hextra : ∀ b ∈ extra, b.stop ≤ sdt) :
    createConflict (db ++ extra) room sdt edt = createConflict db room sdt edt := by
  unfold createConflict
  rw [List.any_append]
  have : extra.any (fun b => b.room == room && decide (b.start < edt) &&
      decide (b.stop > sdt)) = false := by
    rw [List.any_eq_false]
    intro b hb
    have hble := hextra b hb
    have h1 : decide (b.stop > sdt) = false := by
      simp only [decide_eq_false_iff_not]
      omega
    rw [h1, Bool.and_false]
    exact Bool.false_ne_true
  rw [this, Bool.or_false]

theorem createLoop_cons (db : List Booking) (room title account : String)
    (who sid : Option String) (st et nextId d : Nat) (ds : List Nat) :
    createLoop db room title account who sid st et nextId (d :: ds) =
      if createConflict db room (combine d st) (combine d et) then
        ((createLoop db room title account who sid st et nextId ds).1,
          d :: (createLoop db room title account who sid st et nextId ds).2)
      else
        (⟨nextId, room, title, account, who, combine d st, combine d et, sid⟩ ::
            (createLoop
              (db ++ [⟨nextId, room, title, account, who, combine d st, combine d et, sid⟩])
              room title account who sid st et (nextId + 1) ds).1,
          (createLoop
              (db ++ [⟨nextId, room, title, account, who, combine d st, combine d et, sid⟩])
              room title account who sid st et (nextId + 1) ds).2) := rfl

/-- Characterization of the creation loop run on a table `db ++ extra`
where the `extra` rows all end before each candidate range starts: the
skipped dates are exactly the candidates conflicting with `db`, and the
persisted bookings are one per non-conflicting candidate, with
consecutive ids. -/
theorem createLoop_spec (db : List Booking) (room title account : String)
    (who sid : Option String) (st et : Nat) (het : et ≤ usPerDay) :
    ∀ (dates : List Nat) (extra : List Booking) (nextId : Nat),
      dates.Pairwise (· < ·) →
      (∀ b ∈ extra, ∀ d ∈ dates, b.stop ≤ combine d st) →
      createLoop (db ++ extra) room title account who sid st et nextId dates =
        (mkSeriesBookings room title account who sid st et nextId
           (dates.filter (fun d => !createConflict db room (combine d st) (combine d et))),
         dates.filter (fun d => createConflict db room (combine d st) (combine d et)))
  | [], extra, nextId, _, _ => rfl
  | d :: ds, extra, nextId, hsort, hextra => by
    have hconf : createConflict (db ++ extra) room (combine d st) (combine d et) =
        createConflict db room (combine d st) (combine d et) :=
      createConflict_append db extra room _ _
        (fun b hb => hextra b hb d (List.mem_cons_self ..))
    rcases List.pairwise_cons.mp hsort with ⟨hd, hsort'⟩
    by_cases hc : createConflict db room (combine d st) (combine d et) = true
    · have ih := createLoop_spec db room title account who sid st et het ds extra nextId
        hsort' (fun b hb d' hd' => hextra b hb d' (List.mem_cons_of_mem _ hd'))
      rw [createLoop_cons, hconf, if_pos hc, ih]
      rw [List.filter_cons, List.filter_cons]
      simp only [hc, Bool.not_true, if_true, if_false, Bool.false_eq_true]
    · rw [Bool.not_eq_true] at hc
      have ih := createLoop_spec db room title account who sid st et het ds
        (extra ++ [⟨nextId, room, title, account, who, combine d st, combine d et, sid⟩])
        (nextId + 1) hsort' ?_
      · rw [createLoop_cons, hconf, if_neg (by simp [hc]), List.append_assoc, ih]
        simp [List.filter_cons, hc, mkSeriesBookings]
      · intro b hb d' hd'
        rcases List.mem_append.mp hb with hb | hb
        · exact hextra b hb d' (List.mem_cons_of_mem _ hd')
        · rw [List.mem_singleton.mp hb]
          exact combine_le_combine_of_lt st et (hd d' hd') het

theorem length_filter_not_add_length_filter (p : Nat → Bool) :
    ∀ l : List Nat,
      (l.filter (fun d => !p d)).length + (l.filter p).length = l.length
  | [] => rfl
  | d :: ds => by
    have ih := length_filter_not_add_length_filter p ds
    rcases Bool.eq_false_or_eq_true (p d) with h | h <;>
      simp [List.filter_cons, h] <;> omega

theorem new_booking_eq (db : List Booking) (room title account : String)
    (who : Option String) (base st et : Nat) (rep : Option (Finset Nat × Nat))
    (nextId : Nat) (freshSid : String) (hroom : room ∈ ROOMS) (hst : st < et) :
    new_booking db room title account who base st et rep nextId freshSid =
      some (db ++ (createLoop db room title account who
              (if (bookingDates base rep).length > 1 then some freshSid else none)
              st et nextId (bookingDates base rep)).1,
        (createLoop db room title account who
              (if (bookingDates base rep).length > 1 then some freshSid else none)
              st et nextId (bookingDates base rep)).1.length,
        (createLoop db room title account who
              (if (bookingDates base rep).length > 1 then some freshSid else none)
              st et nextId (bookingDates base rep)).2) := by
  unfold new_booking
  rw [if_pos hroom, if_neg (by omega)]

/-- C4. For a create with a repeat pattern (valid room, end time after
start time, times of day below 24h), each candidate date is checked
independently against the pre-existing table: the reported skipped list
is exactly the candidates whose range conflicts with an existing booking
of the room, one booking is persisted per non-conflicting candidate (the
persisted bookings' dates are exactly those candidates), and the reported
created count equals the number of candidates minus the number skipped. -/
theorem new_booking_skips_conflicting_dates (db : List Booking)
    (room title account : String) (who : Option String)
    (base st et repEnd : Nat) (wds : Finset Nat) (nextId : Nat) (freshSid : String)
    (hroom : room ∈ ROOMS) (hst : st < et) (het : et ≤ usPerDay) :
    ∃ news : List Booking,
      new_booking db room title account who base st et (some (wds, repEnd)) nextId
          freshSid =
        some (db ++ news, news.length,
          (bookingDates base (some (wds, repEnd))).filter
            (fun d => createConflict db room (combine d st) (combine d et))) ∧
      news.map (fun b => dateOf b.start) =
        (bookingDates base (some (wds, repEnd))).filter
          (fun d => !createConflict db room (combine d st) (combine d et)) ∧
      news.length +
          ((bookingDates base (some (wds, repEnd))).filter
            (fun d => createConflict db room (combine d st) (combine d et))).length =
        (bookingDates base (some (wds, repEnd))).length := by
  have hstD : st < usPerDay := lt_of_lt_of_le hst het
  have h0 := createLoop_spec db room title account who
    (if (bookingDates base (some (wds, repEnd))).length > 1 then some freshSid else none)
    st et het (bookingDates base (some (wds, repEnd))) [] nextId
    (pairwise_lt_bookingDates _ _) (by simp)
  rw [List.append_nil] at h0
  refine ⟨mkSeriesBookings room title account who
    (if (bookingDates base (some (wds, repEnd))).length > 1 then some freshSid else none)
    st et nextId
    ((bookingDates base (some (wds, repEnd))).filter
      (fun d => !createConflict db room (combine d st) (combine d et))), ?_, ?_, ?_⟩
  · rw [new_booking_eq db room title account who base st et _ nextId freshSid hroom hst,
      h0]
  · exact map_dateOf_mkSeriesBookings room title account who _ st et hstD nextId _
  · rw [length_mkSeriesBookings]
    exact length_filter_not_add_length_filter _ _

/-! ### Mutual non-overlap of a freshly created series -/

theorem overlaps_eq_false_of_le {a b : Booking} (h : a.stop ≤ b.start) :
    a.overlaps b = false ∧ b.overlaps a = false := by
  have h1 : decide (a.stop > b.start) = false := by
    simp only [decide_eq_false_iff_not]
    omega
  unfold Booking.overlaps rangesOverlap
  rw [h1, Bool.and_false, Bool.false_and]
  exact ⟨rfl, rfl⟩

theorem pairwise_sep_mkSeriesBookings (room title account : String)
    (who sid : Option String) (st et : Nat) (het : et ≤ usPerDay) :
    ∀ (nextId : Nat) (dates : List Nat), dates.Pairwise (· < ·) →
      (mkSeriesBookings room title account who sid st et nextId dates).Pairwise
        (fun a b => a.stop ≤ b.start)
  | _, [], _ => List.Pairwise.nil
  | nextId, d :: ds, hsort => by
    rcases List.pairwise_cons.mp hsort with ⟨hd, hsort'⟩
    rw [mkSeriesBookings]
    refine List.Pairwise.cons (fun b hb => ?_)
      (pairwise_sep_mkSeriesBookings room title account who sid st et het (nextId + 1)
        ds hsort')
    obtain ⟨d', hd', hb'⟩ := mem_mkSeriesBookings hb
    rw [hb']
    exact combine_le_combine_of_lt st et (hd d' hd') het

/-- C8. A single create call with a repeat pattern books pairwise
distinct candidate dates, and the bookings it persists are mutually
non-overlapping: each carries the common start and end times of day on
its own calendar date, so occurrences of the newly minted series never
overlap one another. -/
theorem new_booking_created_mutually_nonoverlapping (db : List Booking)
    (room title account : String) (who : Option String)
    (base st et repEnd : Nat) (wds : Finset Nat) (nextId : Nat) (freshSid : String)
    (hroom : room ∈ ROOMS) (hst : st < et) (het : et < usPerDay) :
    (bookingDates base (some (wds, repEnd))).Pairwise (· ≠ ·) ∧
    ∃ (news : List Booking) (skipped : List Nat),
      new_booking db room title account who base st et (some (wds, repEnd)) nextId
          freshSid = some (db ++ news, news.length, skipped) ∧
      news.Pairwise (fun a b => a.overlaps b = false ∧ b.overlaps a = false) ∧
      ∀ b ∈ news, timeOf b.start = st ∧ timeOf b.stop = et ∧
        dateOf b.start = dateOf b.stop ∧ b.start < b.stop := by
  have hstD : st < usPerDay := lt_of_lt_of_le hst (le_of_lt het)
  have hetD : et ≤ usPerDay := le_of_lt het
  have h0 := createLoop_spec db room title account who
    (if (bookingDates base (some (wds, repEnd))).length > 1 then some freshSid else none)
    st et hetD (bookingDates base (some (wds, repEnd))) [] nextId
    (pairwise_lt_bookingDates _ _) (by simp)
  rw [List.append_nil] at h0
  refine ⟨(pairwise_lt_bookingDates _ _).imp Nat.ne_of_lt, ?_⟩
  refine ⟨mkSeriesBookings room title account who
    (if (bookingDates base (some (wds, repEnd))).length > 1 then some freshSid else none)
    st et nextId
    ((bookingDates base (some (wds, repEnd))).filter
      (fun d => !createConflict db room (combine d st) (combine d et))),
    (bookingDates base (some (wds, repEnd))).filter
      (fun d => createConflict db room (combine d st) (combine d et)), ?_, ?_, ?_⟩
  · rw [new_booking_eq db room title account who base st et _ nextId freshSid hroom hst,
      h0, length_mkSeriesBookings]
  · exact ((pairwise_sep_mkSeriesBookings room title account who _ st et hetD nextId _
      ((pairwise_lt_bookingDates _ _).filter _)).imp fun h => overlaps_eq_false_of_le h)
  · intro b hb
    obtain ⟨d, _, hb'⟩ := mem_mkSeriesBookings hb
    rw [hb']
    refine ⟨timeOf_combine d hstD, timeOf_combine d het,
      by rw [dateOf_combine d hstD, dateOf_combine d het], ?_⟩
    show combine d st < combine d et
    unfold combine
    omega

/-! ### Wellformedness of persisted bookings -/

theorem mem_createLoop_fst {room title account : String} {who sid : Option String}
    {st et : Nat} {b : Booking} :
    ∀ {dates : List Nat} {db : List Booking} {nextId : Nat},
      b ∈ (createLoop db room title account who sid st et nextId dates).1 →
      ∃ d ∈ dates, b.start = combine d st ∧ b.stop = combine d et
  | [], _, _, h => by simp [createLoop] at h
  | d :: ds, db, nextId, h => by
    rw [createLoop_cons] at h
    by_cases hc : createConflict db room (combine d st) (combine d et) = true
    · rw [if_pos hc] at h
      obtain ⟨d', hd', hb⟩ := mem_createLoop_fst h
      exact ⟨d', List.mem_cons_of_mem _ hd', hb⟩
    · rw [if_neg hc] at h
      rcases List.mem_cons.mp h with h | h
      · rw [h]
        exact ⟨d, List.mem_cons_self .., rfl, rfl⟩
      · obtain ⟨d', hd', hb⟩ := mem_createLoop_fst h
        exact ⟨d', List.mem_cons_of_mem _ hd', hb⟩

theorem editSeriesCore_eq (db : List Booking) (sid room title account : String)
    (who : Option String) (st et : Nat) (newDates : List Nat) (nextId : Nat) :
    editSeriesCore db sid room title account who st et newDates nextId =
      if (newDates.filter
            (fun d => seriesEditConflict db sid room (combine d st) (combine d et))).isEmpty
      then
        (db.filter (fun bk => !(bk.seriesId == some sid)) ++
           mkSeriesBookings room title account who (some sid) st et nextId newDates, [])
      else
        (db, newDates.filter
          (fun d => seriesEditConflict db sid room (combine d st) (combine d et))) := rfl

/-- C9. Every booking persisted by a create or by a series-edit
replacement (with validated times of day: end after start, both inside a
single day) starts and ends on the same calendar date with end strictly
after start: a row of the resulting table is a pre-existing row or is
wellformed in this sense, so bucketing the grid by start date covers the
whole range of such a booking. -/
theorem persisted_bookings_same_day (db db2 : List Booking)
    (room title account room2 title2 account2 sid : String) (who who2 : Option String)
    (base st et : Nat) (rep : Option (Finset Nat × Nat)) (nextId nextId2 : Nat)
    (freshSid : String) (newDates : List Nat)
    (hst : st < et) (het : et < usPerDay) :
    (∀ res, new_booking db room title account who base st et rep nextId freshSid =
        some res →
      ∀ b ∈ res.1, b ∈ db ∨ (dateOf b.start = dateOf b.stop ∧ b.start < b.stop)) ∧
    (∀ b ∈ (editSeriesCore db2 sid room2 title2 account2 who2 st et newDates nextId2).1,
      b ∈ db2 ∨ (dateOf b.start = dateOf b.stop ∧ b.start < b.stop)) := by
  have hstD : st < usPerDay := lt_of_lt_of_le hst (le_of_lt het)
  have wf : ∀ (b : Booking) (d : Nat), b.start = combine d st → b.stop = combine d et →
      dateOf b.start = dateOf b.stop ∧ b.start < b.stop := by
    intro b d h1 h2
    rw [h1, h2, dateOf_combine d hstD, dateOf_combine d het]
    refine ⟨rfl, ?_⟩
    unfold combine
    omega
  constructor
  · intro res hres b hb
    by_cases hroom : room ∈ ROOMS
    · rw [new_booking_eq db room title account who base st et rep nextId freshSid
        hroom hst] at hres
      obtain rfl : _ = res := Option.some_injective _ hres
      rcases List.mem_append.mp hb with hb | hb
      · exact Or.inl hb
      · obtain ⟨d, _, h1, h2⟩ := mem_createLoop_fst hb
        exact Or.inr (wf b d h1 h2)
    · unfold new_booking at hres
      rw [if_neg hroom] at hres
      exact absurd hres (by simp)
  · intro b hb
    rw [editSeriesCore_eq] at hb
    by_cases hconf : (newDates.filter
        (fun d => seriesEditConflict db2 sid room2 (combine d st) (combine d et))).isEmpty
    · rw [if_pos hconf] at hb
      rcases List.mem_append.mp hb with hb | hb
      · exact Or.inl (List.mem_filter.mp hb).1
      · obtain ⟨d, _, hb'⟩ := mem_mkSeriesBookings hb
        exact Or.inr (wf b d (by rw [hb']) (by rw [hb']))
    · rw [if_neg hconf] at hb
      exact Or.inl hb

/-! ### Atomicity of the series edit -/

/-- C2. The series edit is all-or-nothing: the reported conflict list is
exactly the candidate dates whose range conflicts per the pre-check
query; when it is non-empty the table is left exactly as it was (no
occurrence deleted, modified, or created); and only when it is empty are
the old occurrences of the series deleted and the new ones created. -/
theorem edit_series_atomic (db : List Booking) (sid room title account : String)
    (who : Option String) (st et : Nat) (newDates : List Nat) (nextId : Nat) :
    ((editSeriesCore db sid room title account who st et newDates nextId).2 =
      newDates.filter
        (fun d => seriesEditConflict db sid room (combine d st) (combine d et))) ∧
    ((editSeriesCore db sid room title account who st et newDates nextId).2 ≠ [] →
      (editSeriesCore db sid room title account who st et newDates nextId).1 = db) ∧
    ((editSeriesCore db sid room title account who st et newDates nextId).2 = [] →
      (editSeriesCore db sid room title account who st et newDates nextId).1 =
        db.filter (fun bk => !(bk.seriesId == some sid)) ++
          mkSeriesBookings room title account who (some sid) st et nextId newDates) := by
  rw [editSeriesCore_eq]
  by_cases hconf : (newDates.filter
      (fun d => seriesEditConflict db sid room (combine d st) (combine d et))).isEmpty
  · rw [if_pos hconf]
    exact ⟨(List.isEmpty_iff.mp hconf).symm, fun h => absurd rfl h, fun _ => rfl⟩
  · rw [if_neg hconf]
    refine ⟨rfl, fun _ => rfl, fun h => absurd h ?_⟩
    rw [← List.isEmpty_iff]
    exact fun h2 => hconf h2

/-! ### The NULL series identifier and the series-edit conflict check -/

/-- C1. Evaluation of the series-edit pre-check on a table holding, next
to the edited series ("s", one occurrence on day 0), a one-off booking
(`seriesId` = none) on day 3 in the same room: the new pattern covers day
3 with exactly the one-off booking's time range, yet the conflict list
comes back empty — the SQL filter `series_id != "s"` never matches a NULL
row — and the edit proceeds, persisting a series occurrence that overlaps
the one-off booking. -/
theorem series_edit_misses_null_series_conflict :
    (editSeriesCore
        [⟨1, "Wetlab", "t", "a", none, combine 0 10, combine 0 20, some "s"⟩,
         ⟨2, "Wetlab", "u", "a", none, combine 3 10, combine 3 20, none⟩]
        "s" "Wetlab" "t" "a" none 10 20 [0, 3] 10).2 = [] ∧
    (⟨2, "Wetlab", "u", "a", none, combine 3 10, combine 3 20, none⟩ : Booking) ∈
      (editSeriesCore
        [⟨1, "Wetlab", "t", "a", none, combine 0 10, combine 0 20, some "s"⟩,
         ⟨2, "Wetlab", "u", "a", none, combine 3 10, combine 3 20, none⟩]
        "s" "Wetlab" "t" "a" none 10 20 [0, 3] 10).1 ∧
    ∃ b ∈ (editSeriesCore
        [⟨1, "Wetlab", "t", "a", none, combine 0 10, combine 0 20, some "s"⟩,
         ⟨2, "Wetlab", "u", "a", none, combine 3 10, combine 3 20, none⟩]
        "s" "Wetlab" "t" "a" none 10 20 [0, 3] 10).1,
      b.seriesId = some "s" ∧
      b.overlaps ⟨2, "Wetlab", "u", "a", none, combine 3 10, combine 3 20, none⟩ = true := by
  decide

/-! ### Every conflict check is the open-interval overlap test -/

theorem any_ext {α : Type} (f g : α → Bool) (h : ∀ b, f b = g b) :
    ∀ l : List α, l.any f = l.any g
  | [] => rfl
  | b :: l => by rw [List.any_cons, List.any_cons, h b, any_ext f g h l]

theorem bool_and_shuffle (x p q : Bool) : (x && p && q) = (x && (q && p)) := by
  cases x <;> cases p <;> cases q <;> rfl

/-- C6. Each of the three conflict queries (creation, single edit, series
edit) reports a conflict exactly when some booking passing its exclusion
filter overlaps the candidate range in the open-interval sense of §4.1;
that overlap relation is symmetric, and ranges that merely touch at an
endpoint never overlap. -/
theorem conflict_checks_are_overlap_tests (db : List Booking) (room : String)
    (sdt edt bid : Nat) (sid : String) :
    (createConflict db room sdt edt =
      db.any (fun b => b.room == room && rangesOverlap sdt edt b.start b.stop)) ∧
    (singleEditConflict db bid room sdt edt =
      db.any (fun b => decide (b.id ≠ bid) && (b.room == room) &&
        rangesOverlap sdt edt b.start b.stop)) ∧
    (seriesEditConflict db sid room sdt edt =
      db.any (fun b => b.room == room && seriesNe b.seriesId sid &&
        rangesOverlap sdt edt b.start b.stop)) ∧
    (∀ s1 e1 s2 e2 : Nat, rangesOverlap s1 e1 s2 e2 = rangesOverlap s2 e2 s1 e1) ∧
    (∀ s1 e1 e2 : Nat, rangesOverlap s1 e1 e1 e2 = false) := by
  refine ⟨any_ext _ _ (fun b => ?_) db, any_ext _ _ (fun b => ?_) db,
    any_ext _ _ (fun b => ?_) db, fun s1 e1 s2 e2 => ?_, fun s1 e1 e2 => ?_⟩
  · show _ = (_ && (decide (sdt < b.stop) && decide (edt > b.start)))
    exact bool_and_shuffle _ _ _
  · show _ = (_ && (decide (sdt < b.stop) && decide (edt > b.start)))
    exact bool_and_shuffle _ _ _
  · show _ = (_ && (decide (sdt < b.stop) && decide (edt > b.start)))
    exact bool_and_shuffle _ _ _
  · show (decide (s1 < e2) && decide (e1 > s2)) = (decide (s2 < e1) && decide (e2 > s1))
    rw [Bool.and_comm]
  · show (decide (s1 < e2) && decide (e1 > e1)) = false
    rw [decide_eq_false (lt_irrefl e1), Bool.and_false]

/-! ### The weekly grid -/

/-- C7 (amended). For a booking whose end is not before its start (true
of every persisted booking), the weekly grid places it in cell
(room, day) exactly when its room is the enumerated room of the cell and
its start date is the cell's day, lying within the 7-day window; with a
non-enumerated room or a start date outside the window it appears in no
cell. -/
theorem grid_bucket_iff (db : List Booking) (weekStart day : Nat) (room : String)
    (b : Booking) (hwf : b.start ≤ b.stop) :
    b ∈ buildGrid db weekStart room day ↔
      (b ∈ db ∧ room = b.room ∧ b.room ∈ ROOMS ∧ day = dateOf b.start ∧
       weekStart ≤ day ∧ day ≤ weekStart + 6) := by
  unfold buildGrid
  by_cases hcell : room ∈ ROOMS ∧ weekStart ≤ day ∧ day ≤ weekStart + 6
  · rw [if_pos hcell]
    unfold weekQuery
    simp only [List.mem_filter, Bool.and_eq_true, decide_eq_true_eq, beq_iff_eq]
    constructor
    · rintro ⟨⟨hdb, _, _⟩, hroom, hday⟩
      subst hroom
      subst hday
      exact ⟨hdb, rfl, hcell.1, rfl, hcell.2.1, hcell.2.2⟩
    · rintro ⟨hdb, hroom, hrooms, hday, h1, h2⟩
      subst hroom
      subst hday
      refine ⟨⟨hdb, ?_, ?_⟩, rfl, rfl⟩
      · show b.start ≤ combine (weekStart + 6) (usPerDay - 1)
        unfold dateOf at h2
        unfold combine usPerDay at *
        omega
      · show combine weekStart 0 ≤ b.stop
        unfold dateOf at h1
        unfold combine usPerDay at *
        omega
  · rw [if_neg hcell]
    simp only [List.not_mem_nil, false_iff]
    rintro ⟨_, hroom, hrooms, hday, h1, h2⟩
    subst hroom
    exact hcell ⟨hrooms, h1, h2⟩

/-- C7 counterexample. A stale row whose end instant (0) precedes its
start (on day 10 of the week starting day 7) meets the claimed bucket
conditions — enumerated room, start date inside the 7-day window — yet
the week query drops it (`Booking.end >= start_dt` fails), so it is not
placed in the (room, start-date) cell. -/
theorem grid_bucket_iff_cex :
    (⟨0, "Wetlab", "t", "a", none, combine 10 0, 0, none⟩ : Booking).room ∈ ROOMS ∧
    (⟨0, "Wetlab", "t", "a", none, combine 10 0, 0, none⟩ : Booking) ∈
      [(⟨0, "Wetlab", "t", "a", none, combine 10 0, 0, none⟩ : Booking)] ∧
    7 ≤ dateOf (⟨0, "Wetlab", "t", "a", none, combine 10 0, 0, none⟩ : Booking).start ∧
    dateOf (⟨0, "Wetlab", "t", "a", none, combine 10 0, 0, none⟩ : Booking).start ≤ 7 + 6 ∧
    (⟨0, "Wetlab", "t", "a", none, combine 10 0, 0, none⟩ : Booking) ∉
      buildGrid [⟨0, "Wetlab", "t", "a", none, combine 10 0, 0, none⟩] 7 "Wetlab"
        (dateOf (⟨0, "Wetlab", "t", "a", none, combine 10 0, 0, none⟩ : Booking).start) := by
  decide

/-! ### The JSON bookings feed -/

theorem sorted_by_start_mergeSort (l : List Booking) :
    List.Sorted (fun a b : Booking => a.start ≤ b.start)
      (l.mergeSort (fun a b : Booking => decide (a.start ≤ b.start))) := by
  have h := @List.sorted_mergeSort Booking
    (fun a b : Booking => decide (a.start ≤ b.start))
    (fun a b c hab hbc => by
      simp only [decide_eq_true_eq] at *
      omega)
    (fun a b => by
      rcases Nat.le_total a.start b.start with h | h <;> simp [h]) l
  exact h.imp (fun hd => by simpa using hd)

/-- C10. The JSON feed is returned in ascending order of start instant,
and a start or end query parameter that fails ISO-8601 parsing is
treated exactly as an absent parameter — nothing errors and nothing is
filtered out. -/
theorem api_bookings_sorted_and_lenient (db : List Booking)
    (ps pe : Option (Option Nat)) :
    List.Sorted (fun a b : Booking => a.start ≤ b.start) (api_bookings db ps pe) ∧
    api_bookings db (some none) pe = api_bookings db none pe ∧
    api_bookings db ps (some none) = api_bookings db ps none := by
  refine ⟨sorted_by_start_mergeSort _, ?_, ?_⟩
  · cases pe with
    | none => rfl
    | some o => cases o <;> rfl
  · cases ps with
    | none => rfl
    | some o => cases o <;> rfl

/-! ### Concrete witnesses -/

/-- C4 witness: a three-date repeat create against a table holding one
clashing booking on the middle date succeeds (two created, one skipped). -/
theorem new_booking_skips_conflicting_dates_witness :
    (new_booking [⟨0, "Wetlab", "t", "a", none, combine 1 0, combine 1 2, none⟩]
      "Wetlab" "u" "a" none 0 0 2 (some ({0, 1, 2, 3, 4, 5, 6}, 2)) 1 "fresh").isSome =
      true := by
  obtain ⟨news, h1, -, -⟩ := new_booking_skips_conflicting_dates
    [⟨0, "Wetlab", "t", "a", none, combine 1 0, combine 1 2, none⟩]
    "Wetlab" "u" "a" none 0 0 2 2 {0, 1, 2, 3, 4, 5, 6} 1 "fresh"
    (by decide) (by decide) (by decide)
  rw [h1]
  rfl

/-- C8 witness: the candidate dates of a concrete repeat create are
pairwise distinct, by the non-overlap theorem at that input. -/
theorem new_booking_created_mutually_nonoverlapping_witness :
    (bookingDates 0 (some (({1} : Finset Nat), 3))).Pairwise (· ≠ ·) :=
  (new_booking_created_mutually_nonoverlapping [] "Wetlab" "t" "a" none 0 0 2 3 {1} 0
    "fresh" (by decide) (by decide) (by decide)).1

/-- C9 witness: the occurrence persisted by a concrete series replacement
lies within its calendar date with end after start. -/
theorem persisted_bookings_same_day_witness :
    (⟨7, "Wetlab", "t", "a", none, combine 5 1, combine 5 2, some "s"⟩ : Booking) ∈
        ([] : List Booking) ∨
      (dateOf (⟨7, "Wetlab", "t", "a", none, combine 5 1, combine 5 2,
            some "s"⟩ : Booking).start =
          dateOf (⟨7, "Wetlab", "t", "a", none, combine 5 1, combine 5 2,
            some "s"⟩ : Booking).stop ∧
        (⟨7, "Wetlab", "t", "a", none, combine 5 1, combine 5 2,
            some "s"⟩ : Booking).start <
          (⟨7, "Wetlab", "t", "a", none, combine 5 1, combine 5 2,
            some "s"⟩ : Booking).stop) :=
  (persisted_bookings_same_day [] [] "Wetlab" "t" "a" "Wetlab" "t" "a" "s" none none
    0 1 2 none 0 7 "fresh" [5] (by decide) (by decide)).2
    ⟨7, "Wetlab", "t", "a", none, combine 5 1, combine 5 2, some "s"⟩ (by decide)

/-- C2 witness: a conflicting series edit leaves the concrete table
exactly as it was. -/
theorem edit_series_atomic_witness :
    (editSeriesCore
      [⟨1, "Wetlab", "t", "a", none, combine 0 10, combine 0 20, some "s"⟩,
       ⟨2, "Wetlab", "u", "a", none, combine 3 10, combine 3 20, some "z"⟩]
      "s" "Wetlab" "t" "a" none 10 20 [3] 9).1 =
      [⟨1, "Wetlab", "t", "a", none, combine 0 10, combine 0 20, some "s"⟩,
       ⟨2, "Wetlab", "u", "a", none, combine 3 10, combine 3 20, some "z"⟩] :=
  (edit_series_atomic
    [⟨1, "Wetlab", "t", "a", none, combine 0 10, combine 0 20, some "s"⟩,
     ⟨2, "Wetlab", "u", "a", none, combine 3 10, combine 3 20, some "z"⟩]
    "s" "Wetlab" "t" "a" none 10 20 [3] 9).2.1 (by decide)

/-- C7 witness: a wellformed booking on day 10 of the week starting day 7
is placed in its (room, start-date) cell. -/
theorem grid_bucket_iff_witness :
    (⟨0, "Wetlab", "t", "a", none, combine 10 1, combine 10 2, none⟩ : Booking) ∈
      buildGrid [⟨0, "Wetlab", "t", "a", none, combine 10 1, combine 10 2, none⟩]
        7 "Wetlab" 10 :=
  (grid_bucket_iff [⟨0, "Wetlab", "t", "a", none, combine 10 1, combine 10 2, none⟩]
    7 10 "Wetlab" ⟨0, "Wetlab", "t", "a", none, combine 10 1, combine 10 2, none⟩
    (by decide)).mpr (by decide)

end MondriaanBooking
